import Mathlib

/-!
Verification of the AskRGIPT retrieval and indexing engine.

This file gives a shallow embedding, in Lean, of the core backend functions of
the repository (vector store search and insertion, indexing pipeline and its
change detection, intent classification, citation grounding, and the RAG query
entry point), together with theorems settling the behavioural claims made by
the natural-language specification.

Modelling conventions, used throughout:
- Python parallel lists (documents, metadatas, distances, ids) returned by the
  vector collection are modelled as a single list of `Entry` records.
- Python floats (distances, scores, thresholds) are modelled as rationals.
- External collaborators (the Chroma collection, the cross-encoder reranker,
  the LLM completion call) are modelled as function parameters; side effects
  (collection inserts, metadata persistence) are modelled as explicit event
  traces so that claims about effect ordering can be stated.
- Decimal rendering of numbers in Python f-strings is modelled by `natRepr`,
  a structural (fuel-based) decimal numeral function, so that the kernel can
  evaluate it on concrete inputs.
-/

/-- Decimal digit list of a natural number, most significant digit first.
The first argument is recursion fuel; any fuel strictly larger than the number
of digits gives the true numeral. Models the decimal rendering used by Python
f-strings such as the id template in `VectorStore.add_documents`. -/
def natReprAux : ℕ → ℕ → List Char
  | 0, _ => []
  | fuel + 1, n =>
    if n < 10 then [Nat.digitChar n]
    else natReprAux fuel (n / 10) ++ [Nat.digitChar (n % 10)]

/-- Decimal numeral string of a natural number. -/
def natRepr (n : ℕ) : String := String.mk (natReprAux (n + 1) n)

/-- Decimal numeral string of an integer. -/
def intRepr (i : ℤ) : String :=
  if i < 0 then "-" ++ natRepr i.natAbs else natRepr i.toNat

/-- Whitespace tokenisation of a character list: maximal runs of non-whitespace
characters, in order. Models the Python `str.split()` used by
`CitationManager.verify_citation` (split on whitespace runs, dropping empty
tokens). -/
def words : List Char → List (List Char)
  | [] => []
  | c :: cs =>
    if c.isWhitespace then words cs
    else
      match cs with
      | [] => [[c]]
      | d :: cs2 =>
        if d.isWhitespace then [c] :: words (d :: cs2)
        else
          match words (d :: cs2) with
          | [] => [[c]]
          | w :: rest => (c :: w) :: rest

/-- Insert an element into a list sorted by a score function, keeping the list
sorted in descending score order. -/
def insertDescBy {α : Type} (f : α → ℚ) (a : α) : List α → List α
  | [] => [a]
  | b :: l => if f b ≤ f a then a :: b :: l else b :: insertDescBy f a l

/-- Sort a list in descending order of a score function (insertion sort).
Models the `np.argsort(rerank_scores)[::-1]` index permutation of
`VectorStore.search`: the reranked candidates are reordered by descending
rerank score (ties are resolved deterministically; the claims under
verification do not depend on tie order). -/
def sortDescBy {α : Type} (f : α → ℚ) : List α → List α
  | [] => []
  | a :: l => insertDescBy f a (sortDescBy f l)

/-- Remainder of a character list after the first occurrence of a literal, or
`none` when the literal does not occur. Scanning for the first occurrence and
continuing after it is equivalent, for the Boolean question of whether a
dotted-gap regular expression matches, to the existence of any occurrence. -/
def afterFirst (needle : List Char) : List Char → Option (List Char)
  | [] => if needle.isPrefixOf ([] : List Char) then some [] else none
  | c :: rest =>
    if needle.isPrefixOf (c :: rest) then some ((c :: rest).drop needle.length)
    else afterFirst needle rest

/-- Whether a character list contains the given literals in order, with
arbitrary gaps between them. `containsSeq s [a, b]` is the truth value of an
unanchored search for the regular expression `a.*b` on `s`. -/
def containsSeq (s : List Char) : List (List Char) → Bool
  | [] => true
  | lit :: lits =>
    match afterFirst lit s with
    | some rest => containsSeq rest lits
    | none => false

/-! ## Vector store (src/backend/vector_store.py) -/

/-- Chunk metadata fields needed by the claims. The Python metadata dictionary
carries further pass-through keys (file path, extraction method, OCR
confidence); they do not affect any behaviour under verification and are not
modelled. `page = some p` models the key `"page"` being present with value
`p`. -/
structure DocMeta where
  source : String
  category : String
  page : Option ℤ
deriving DecidableEq

/-- One search hit of the backing collection: one index position of the
parallel lists `documents / metadatas / distances / ids` returned by
`collection.query`. -/
structure Entry where
  doc : String
  meta : DocMeta
  dist : ℚ
  id : String
deriving DecidableEq

/-- Default result count, `config.TOP_K_RESULTS` (src/backend/config.py). -/
def TOP_K_RESULTS : ℕ := 5

/-- Observable side effects of the indexing subsystem, recorded as a trace:
clearing the backing collection, inserting one batch (documents, metadatas,
ids), updating the in-memory `IndexedFileRecord` for a file, and persisting
the index metadata store to disk. -/
inductive Event where
  | clearColl : Event
  | insertBatch : List String → List DocMeta → List String → Event
  | markIndexed : String → ℕ → Event
  | persist : Event
deriving DecidableEq

/-- Batch start offsets `range(0, n, batch_size)` of the Python batching loop.
Defined for `0 < batch_size`; Python raises on a zero step, so theorems about
batching carry that hypothesis. -/
def batchStarts (n batch_size : ℕ) : List ℕ :=
  (List.range ((n + batch_size - 1) / batch_size)).map (fun k => k * batch_size)

/-- Ids generated for the batch starting at offset `i` with `len` chunks:
`doc_{i+j}` for `j < len`, from the f-string in `VectorStore.add_documents`. -/
def genBatchIds (i len : ℕ) : List String :=
  (List.range len).map (fun j => "doc_" ++ natRepr (i + j))

/-- Model of `VectorStore.add_documents(chunks, metadata, batch_size, clear_existing)`.
Returns the emitted effect trace together with the raised error, if any.
Mirrors the source order exactly: the empty-input early return comes first
(no error, no effects), then the length validation (raises before any
effect), then the optional collection clear, then the batched inserts. -/
def add_documents (chunks : List String) (metadata : List DocMeta)
    (batch_size : ℕ) (clear_existing : Bool) : List Event × Option String :=
  if chunks = [] ∨ metadata = [] then ([], none)
  else if chunks.length ≠ metadata.length then
    ([], some "Chunks and metadata must have the same length")
  else
    let clearEvs := if clear_existing then [Event.clearColl] else []
    let batches := (batchStarts chunks.length batch_size).map (fun i =>
      Event.insertBatch ((chunks.drop i).take batch_size)
        ((metadata.drop i).take batch_size)
        (genBatchIds i ((chunks.drop i).take batch_size).length))
    (clearEvs ++ batches, none)

/-- The chunk ids assigned by the insert batches of an `add_documents` call. -/
def traceIds (r : List Event × Option String) : List String :=
  r.1.flatMap (fun e =>
    match e with
    | Event.insertBatch _ _ ids => ids
    | _ => [])

/-- Model of `VectorStore.search(query, top_k, category_filter, similarity_threshold,
use_reranking)`. The backing collection is a parameter
`coll : n_results → category_filter → hits` (nearest neighbours in ascending
distance order); the optional cross-encoder reranker is a parameter scoring
(query, document) pairs. Translation of lines 112-204 of
src/backend/vector_store.py:
fetch `2*top_k` candidates when reranking is requested and a reranker is
configured, else `top_k`; empty fetch returns empty; rerank (sort descending
by reranker score, truncate to `top_k`) only when reranking is requested, a
reranker exists and more than `top_k` candidates came back, else plain
truncation to `top_k`; finally drop hits whose similarity `1 - distance` is
below the threshold, when one is given. -/
def search (coll : ℕ → Option String → List Entry)
    (reranker : Option (String → String → ℚ)) (query : String)
    (top_k : Option ℕ) (category_filter : Option String)
    (similarity_threshold : Option ℚ) (use_reranking : Bool) : List Entry :=
  let topK := top_k.getD TOP_K_RESULTS
  let n_results := if use_reranking && reranker.isSome then topK * 2 else topK
  let raw := coll n_results category_filter
  if raw = [] then []
  else
    let ranked :=
      match reranker with
      | some rr =>
        if use_reranking && decide (topK < raw.length) then
          (sortDescBy (fun e => rr query e.doc) raw).take topK
        else raw.take topK
      | none => raw.take topK
    match similarity_threshold with
    | none => ranked
    | some t => ranked.filter (fun e => decide (t ≤ 1 - e.dist))

/-- Model of `VectorStore.hybrid_search(query, top_k, category_filter, keyword_weight)`
(lines 206-247 of src/backend/vector_store.py). The semantic search over
`2*top_k` candidates is computed first, as in the source; when a reranker is
configured the method instead returns a fresh reranked `search` over `top_k`.
The `keyword_weight` parameter is accepted and never read. -/
def hybrid_search (coll : ℕ → Option String → List Entry)
    (reranker : Option (String → String → ℚ)) (query : String)
    (top_k : Option ℕ) (category_filter : Option String)
    (keyword_weight : ℚ) : List Entry :=
  let topK := top_k.getD TOP_K_RESULTS
  let semantic_results := search coll reranker query (some (topK * 2)) category_filter none false
  match reranker with
  | some _ => search coll reranker query (some topK) category_filter none true
  | none => semantic_results

/-! ## Citation manager (src/backend/citation_manager.py) -/

/-- The stopword set removed by `CitationManager.verify_citation`. -/
def common_words : List (List Char) :=
  (["the", "a", "an", "and", "or", "but", "in", "on", "at", "to", "for", "of",
    "with", "by"]).map String.toList

/-- Model of `CitationManager.verify_citation(chunk_text, answer)` (lines 156-184):
lowercase and whitespace-tokenise both texts into sets, remove the stopwords,
reject when the chunk set is empty, and accept exactly when the fraction of
answer tokens present in the chunk exceeds 0.2 (the Python float literal 0.2;
modelled as the rational 1/5, which agrees with the float comparison for all
realistic set sizes). -/
def verify_citation (chunk_text answer : List Char) : Bool :=
  let chunk_words := (words (chunk_text.map Char.toLower)).toFinset \ common_words.toFinset
  let answer_words := (words (answer.map Char.toLower)).toFinset \ common_words.toFinset
  if chunk_words = ∅ then false
  else
    let overlap : ℚ :=
      if answer_words ≠ ∅ then ((chunk_words ∩ answer_words).card : ℚ) / (answer_words.card : ℚ)
      else 0
    decide ((1 : ℚ) / 5 < overlap)

/-- Value of a list of decimal digit characters, as parsed by Python `int`. -/
def digitsVal (ds : List Char) : ℕ :=
  ds.foldl (fun a c => 10 * a + (c.toNat - 48)) 0

/-- Match of the regular expression `\[Page\s+(\d+)\]` at the head of the
list: the literal `[Page`, then at least one whitespace, then at least one
digit, then `]`; returns the parsed number. Maximal-run matching agrees with
the greedy regex semantics because no backtracked split can succeed. -/
def pageAt (s : List Char) : Option ℕ :=
  if "[Page".toList.isPrefixOf s then
    let r := s.drop 5
    let sp := r.takeWhile (fun c => c.isWhitespace)
    if sp.isEmpty then none
    else
      let r2 := r.drop sp.length
      let ds := r2.takeWhile (fun c => c.isDigit)
      if ds.isEmpty then none
      else if (r2.drop ds.length).head? = some ']' then some (digitsVal ds) else none
  else none

/-- Leftmost match of `\[Page\s+(\d+)\]`, as found by `re.search`. -/
def pageScan : List Char → Option ℕ
  | [] => none
  | c :: rest =>
    match pageAt (c :: rest) with
    | some v => some v
    | none => pageScan rest

/-- Model of `CitationManager.extract_page_number(chunk_text, metadata)`: the metadata
page field wins when the key is present; otherwise the first in-text
`[Page N]` marker. -/
def extract_page_number (chunk_text : String) (meta : DocMeta) : Option ℤ :=
  match meta.page with
  | some p => some p
  | none => (pageScan chunk_text.toList).map Int.ofNat

/-- A structured citation, `CitationManager.extract_citation` plus the rank
and similarity fields added by `create_citation_dict`. Pass-through fields not
used by any claim (chunk id, file path, extraction method, OCR confidence)
are not modelled. -/
structure Citation where
  source : String
  category : String
  page : Option ℤ
  text_preview : String
  rank : ℕ
  similarity : Option ℚ
deriving DecidableEq

/-- Model of `CitationManager.extract_citation(metadata, chunk_text, page_num)`:
the text preview truncates chunks longer than 200 characters and appends an
ellipsis. -/
def extract_citation (meta : DocMeta) (chunk_text : String) (page_num : Option ℤ)
    (rank : ℕ) (similarity : Option ℚ) : Citation :=
  { source := meta.source
    category := meta.category
    page := match page_num with | some p => some p | none => meta.page
    text_preview :=
      if 200 < chunk_text.length then chunk_text.take 200 ++ "..." else chunk_text
    rank := rank
    similarity := similarity }

/-- Model of `CitationManager.create_citation_dict(results)`: one citation per hit, in
rank order, with similarity `1 - distance`. -/
def create_citation_dict (results : List Entry) : List Citation :=
  results.enum.map (fun p =>
    extract_citation p.2.meta p.2.doc (extract_page_number p.2.doc p.2.meta)
      (p.1 + 1) (some (1 - p.2.dist)))

/-! ## Query router (src/backend/query_router.py) -/

/-- Python word character class `\w` (ASCII): letters, digits, underscore. -/
def wordChar (c : Char) : Bool := c.isAlphanum || c = '_'

/-- The two `policy_comparison` pattern regexes of
`QueryRouter.intent_patterns`, each an alternation of literal sequences with
`.*` gaps. -/
def comparisonPatterns : List (List (List String)) :=
  [[["compare"], ["comparison"], ["difference"], ["differences"], ["vs"], ["versus"]],
   [["which", "better"], ["what", "difference", "between"]]]

/-- The two `policy_summary` pattern regexes. -/
def summaryPatterns : List (List (List String)) :=
  [[["summarize"], ["summary"], ["overview"], ["brief"], ["tl;dr"], ["tldr"]],
   [["what", "policy", "about"], ["explain", "policy"]]]

/-- The two `fee_query` pattern regexes. -/
def feePatterns : List (List (List String)) :=
  [[["fee"], ["fees"], ["payment"], ["tuition"], ["cost"], ["price"]],
   [["how much"], ["what", "fee"], ["fee structure"]]]

/-- The two `calendar_query` pattern regexes. -/
def calendarPatterns : List (List (List String)) :=
  [[["calendar"], ["schedule"], ["date"], ["dates"], ["deadline"], ["when"]],
   [["academic calendar"], ["exam", "date"], ["registration", "date"]]]

/-- The two `policy_search` pattern regexes. -/
def searchPatterns : List (List (List String)) :=
  [[["policy"], ["policies"], ["regulation"], ["regulations"], ["rule"], ["rules"]],
   [["what", "policy"], ["search", "policy"], ["find", "policy"]]]

/-- Truth value of `re.search` of one pattern regex (an alternation of
literal sequences separated by `.*`) on a character list. -/
def reMatch (s : List Char) (alts : List (List String)) : Bool :=
  alts.any (fun alt => containsSeq s (alt.map String.toList))

/-- Python `any(re.search(pattern, q) for pattern in patterns)`. -/
def anyPattern (pats : List (List (List String))) (s : List Char) : Bool :=
  pats.any (reMatch s)

/-- Greedy continuation of a match of `(\w+(?:\s+\w+)*)\s+(?:policy|policies)`
positioned immediately after a `\w+` run; `consumed` counts the characters
matched so far, and the result is the total length of the greedy match.
Whitespace and word runs are consumed maximally (giving characters back can
never help this pattern, since each run is followed by a character of the
other class), and the greedy group prefers a deeper iteration over stopping
at `policy`, exactly like the backtracking engine. The first argument is
recursion fuel, sufficient whenever it is at least the length of `rest`. -/
def matchTail : ℕ → List Char → ℕ → Option ℕ
  | 0, _, _ => none
  | fuel + 1, rest, consumed =>
    let sp := rest.takeWhile (fun c => c.isWhitespace)
    if sp.isEmpty then none
    else
      let r2 := rest.drop sp.length
      let w := r2.takeWhile wordChar
      if w.isEmpty then none
      else
        match matchTail fuel (r2.drop w.length) (consumed + sp.length + w.length) with
        | some res => some res
        | none =>
          if "policy".toList.isPrefixOf r2 then some (consumed + sp.length + 6)
          else if "policies".toList.isPrefixOf r2 then some (consumed + sp.length + 8)
          else none

/-- Length of the greedy match of `(\w+(?:\s+\w+)*)\s+(?:policy|policies)`
starting at the head of `s`, or `none`. -/
def matchPoliciesAt (s : List Char) : Option ℕ :=
  let w := s.takeWhile wordChar
  if w.isEmpty then none else matchTail s.length (s.drop w.length) w.length

/-- Scan of `re.findall` for the policy-pair pattern: try each start
position from the left, skip one character on failure, continue after the
match (at least one character) on success, and count the matches. The first
argument is recursion fuel, sufficient whenever it is at least `s.length`. -/
def scanPolicies : ℕ → List Char → ℕ
  | 0, _ => 0
  | _ + 1, [] => 0
  | fuel + 1, c :: rest =>
    match matchPoliciesAt (c :: rest) with
    | some len => 1 + scanPolicies fuel ((c :: rest).drop (max len 1))
    | none => scanPolicies fuel rest

/-- Number of matches returned by `re.findall` of the pattern
`(\w+(?:\s+\w+)*)\s+(?:policy|policies)` in
`QueryRouter.classify_intent`. -/
def countPolicies (s : List Char) : ℕ := scanPolicies s.length s

/-- The three leading literals of the `policy_summary` extraction regex. -/
def summaryLits : List String := ["summarize", "summary", "overview"]

/-- Truth value of `re.search` of the pattern
`(?:summarize|summary|overview).*?(?:of|for)?\s*([\w\s]+?)(?:\s+policy)?`
on the query: the search succeeds exactly when one of
the three literals occurs and at least one word-or-whitespace character
follows somewhere after it (the lazy gap, the optional `of`/`for`, `\s*` and
the optional trailing ` policy` impose no further constraint on
satisfiability). -/
def summaryExtractOk (s : List Char) : Bool :=
  (List.range (s.length + 1)).any (fun i =>
    summaryLits.any (fun l =>
      l.toList.isPrefixOf (s.drop i) &&
        (s.drop (i + l.toList.length)).any (fun c => wordChar c || c.isWhitespace)))

/-- Model of `QueryRouter.classify_intent(query)` (lines 43-118), restricted to the
returned intent string; the extracted parameter values are modelled only
through the success tests that gate control flow. The query is lowercased
first. The comparison branch returns only when the pattern list matches and
the policy-pair extraction finds at least two matches; the summary branch
returns only when the pattern list matches and the name extraction succeeds;
on extraction failure both fall through to the later checks, exactly as in
the nested returns of the source. The fee, calendar and search branches
return whenever their pattern lists match (their parameter extractions are
best-effort and never gate the intent). -/
def classify_intent (query : List Char) : String :=
  let q := query.map Char.toLower
  if anyPattern comparisonPatterns q && decide (2 ≤ countPolicies q) then "policy_comparison"
  else if anyPattern summaryPatterns q && summaryExtractOk q then "policy_summary"
  else if anyPattern feePatterns q then "fee_query"
  else if anyPattern calendarPatterns q then "calendar_query"
  else if anyPattern searchPatterns q then "policy_search"
  else "general"

/-! ## RAG engine (src/backend/rag_engine.py) -/

/-- The fixed system instruction of `RAGEngine` (lines 28-35). -/
def system_prompt : String :=
  "You are a helpful assistant for RGIPT (Rajiv Gandhi Institute of Petroleum Technology).\nYour role is to answer questions based ONLY on the provided context from official RGIPT documents.\nYou must:\n1. Answer questions using ONLY the information provided in the context\n2. Include citations using the format: \"According to [Document Name]...\"\n3. If the context doesn\x27t contain enough information, say \"I couldn\x27t find an authoritative answer in the available documents.\"\n4. Be precise and accurate\n5. Do not make up information or use knowledge outside the provided context"

/-- The fixed not-found answer returned by `RAGEngine.query` when retrieval
yields zero documents (lines 203-209). -/
def notFoundAnswer : String :=
  "I couldn\x27t find relevant information in the available documents to answer your question. Please try rephrasing or contact an administrator for assistance."

/-- The answer returned when context assembly produces an empty context. -/
def emptyContextAnswer : String :=
  "I couldn\x27t find enough information in the available documents to answer your question."

/-- The apology answer returned when the completion call raises. -/
def apologyAnswer : String :=
  "I apologize, but I encountered an error while generating a response. Please try again."

/-- Model of `RAGEngine._preprocess_query(query)`: append the expansion of each known
abbreviation whose lowercase form occurs in the lowercase original query. -/
def preprocess_query (query : String) : String :=
  let expansions : List (String × String) :=
    [("RGIPT", "Rajiv Gandhi Institute of Petroleum Technology"),
     ("fee", "fee structure fees payment"),
     ("policy", "policy policies regulation regulations")]
  expansions.foldl (fun acc p =>
    if decide ((p.1.toList.map Char.toLower) <:+: (query.toList.map Char.toLower)) then
      acc ++ " " ++ p.2
    else acc) query

/-- The document marker prefixed to each context chunk, `[Document: source]`
or `[Document: source, Page n]`; the page is included only when truthy in
Python, that is, present and nonzero. -/
def docMarker (source : String) (page : Option ℤ) : String :=
  "\n[Document: " ++ source ++
    (match page with
     | some p => if p = 0 then "" else ", Page " ++ intRepr p
     | none => "") ++ "]\n"

/-- The context-part accumulation loop of `RAGEngine._build_context` (lines
82-109): append each marker-prefixed chunk while the character budget allows;
an overflowing chunk is truncated with an ellipsis when more than 100
characters of budget would remain for its text, and otherwise stops the loop;
the loop also stops once the accumulated length reaches the budget. -/
def buildContextParts : List Entry → ℕ → ℕ → List String
  | [], _, _ => []
  | e :: rest, current, maxLen =>
    let marker := docMarker e.meta.source (extract_page_number e.doc e.meta)
    let doc_text := marker ++ e.doc
    if maxLen < current + doc_text.length then
      let remaining : ℤ := (maxLen : ℤ) - (current : ℤ) - (marker.length : ℤ) - 100
      if 100 < remaining then
        let dt := marker ++ e.doc.take remaining.toNat ++ "..."
        dt :: (if maxLen ≤ current + dt.length then []
               else buildContextParts rest (current + dt.length) maxLen)
      else []
    else
      doc_text :: (if maxLen ≤ current + doc_text.length then []
                   else buildContextParts rest (current + doc_text.length) maxLen)

/-- Model of `RAGEngine._build_context(results, max_length)`: the assembled context
string and the citations truncated to the context chunks actually included. -/
def build_context (results : List Entry) (max_length : ℕ) : String × List Citation :=
  if results = [] then ("", [])
  else
    let citations := create_citation_dict results
    let parts := buildContextParts results 0 max_length
    (String.intercalate "\n" parts, citations.take parts.length)

/-- Python `str.strip()`: remove leading and trailing whitespace. -/
def pyStrip (s : String) : String :=
  String.mk (((s.toList.dropWhile (fun c => c.isWhitespace)).reverse.dropWhile
    (fun c => c.isWhitespace)).reverse)

/-- Result record of `RAGEngine._generate_answer`; the `model` and
`tokens_used` pass-through fields are not modelled. -/
structure GenAnswer where
  answer : String
  citations : List Citation
  is_grounded : Bool
  error : Option String
deriving DecidableEq

/-- Model of `RAGEngine._generate_answer(query, context, citations)` with the
completion service modelled as an oracle from (system prompt, user prompt) to
either an answer or an exception message. On success the answer is stripped
and graded as grounded when some citation text preview passes
`verify_citation` (vacuously grounded when there are no citations); on
failure the fixed apology is returned with `is_grounded = false`. -/
def generate_answer (llm : String → String → Except String String)
    (query context : String) (citations : List Citation) : GenAnswer :=
  let user_prompt :=
    "Context from RGIPT documents:\n" ++ context ++ "\n\nQuestion: " ++ query ++
      "\n\nPlease answer the question using ONLY the information from the context above. Include citations in your answer using the format \"According to [Document Name]...\" when referencing specific information."
  match llm system_prompt user_prompt with
  | Except.ok raw =>
    let answer := pyStrip raw
    { answer := answer
      citations := citations
      is_grounded :=
        if citations ≠ [] then
          citations.any (fun c => verify_citation c.text_preview.toList answer.toList)
        else true
      error := none }
  | Except.error e =>
    { answer := apologyAnswer
      citations := []
      is_grounded := false
      error := some ("Error generating answer: " ++ e) }

/-- Response record of `RAGEngine.query`. `llm_called` instruments whether
`_generate_answer` (and hence the completion service) was invoked; the
`query` echo field of the full-path response is not modelled. -/
structure QueryResult where
  answer : String
  citations : List Citation
  is_grounded : Bool
  retrieved_docs : ℕ
  error : Option String
  llm_called : Bool
deriving DecidableEq

/-- Model of `RAGEngine.query(question, top_k, category_filter, similarity_threshold)`
(lines 175-229): preprocess the question, retrieve with reranking enabled,
short-circuit on zero retrieved documents with the fixed not-found answer,
short-circuit on empty assembled context, and otherwise generate the answer
through the completion oracle. -/
def ragQuery (coll : ℕ → Option String → List Entry)
    (reranker : Option (String → String → ℚ))
    (llm : String → String → Except String String) (question : String)
    (top_k : Option ℕ) (category_filter : Option String)
    (similarity_threshold : Option ℚ) : QueryResult :=
  let preprocessed_query := preprocess_query question
  let results := search coll reranker preprocessed_query top_k category_filter
    similarity_threshold true
  if results = [] then
    { answer := notFoundAnswer, citations := [], is_grounded := false
      retrieved_docs := 0, error := none, llm_called := false }
  else
    let bc := build_context results 3000
    if bc.1 = "" then
      { answer := emptyContextAnswer, citations := [], is_grounded := false
        retrieved_docs := results.length, error := none, llm_called := false }
    else
      let g := generate_answer llm question bc.1 bc.2
      { answer := g.answer, citations := g.citations, is_grounded := g.is_grounded
        retrieved_docs := results.length, error := g.error, llm_called := true }

/-! ## Indexing pipeline (src/backend/indexing_pipeline.py) -/

/-- One stored `IndexedFileRecord` of the index metadata store. The
`indexed_at` wall-clock timestamp is not modelled. -/
structure IndexRecord where
  hash : String
  mtime : ℤ
  chunk_count : ℕ
deriving DecidableEq

/-- A file visited by the pipeline walk: its path, its extension, whether it
exists on disk, its current content hash and modification time, and the
(chunk, metadata) pairs the document processor extracts from it. The
processor returns the chunk and metadata lists in lockstep, which the pair
representation makes intrinsic. -/
structure SrcFile where
  path : String
  ext : String
  fileExists : Bool
  hash : String
  mtime : ℤ
  chunks : List (String × DocMeta)
deriving DecidableEq

/-- Model of `config.SUPPORTED_FORMATS`. -/
def SUPPORTED_FORMATS : List String := [".pdf", ".docx", ".txt", ".html", ".htm"]

/-- Lookup in the index metadata store, modelled as an association list with
the most recent record for a path listed first. -/
def lookupRec (meta : List (String × IndexRecord)) (path : String) : Option IndexRecord :=
  (meta.find? (fun p => p.1 = path)).map (fun p => p.2)

/-- Model of `IndexingPipeline._is_file_indexed(file_path)` (lines 53-71): false for a
missing file; otherwise recompute the hash and read the mtime, and report the
file as already indexed when a stored record exists whose hash matches or,
failing that, whose mtime matches (the mtime branch does not compare the
recomputed hash). -/
def is_file_indexed (meta : List (String × IndexRecord)) (f : SrcFile) : Bool :=
  if !f.fileExists then false
  else
    match lookupRec meta f.path with
    | some info => decide (info.hash = f.hash) || decide (info.mtime = f.mtime)
    | none => false

/-- Model of `IndexingPipeline._mark_file_indexed(file_path, chunk_count)`: store a
fresh record with the recomputed hash and current mtime. -/
def mark_file_indexed (meta : List (String × IndexRecord)) (f : SrcFile)
    (chunk_count : ℕ) : List (String × IndexRecord) :=
  (f.path, { hash := f.hash, mtime := f.mtime, chunk_count := chunk_count }) :: meta

/-- The collection loop of `IndexingPipeline.index_all_documents` (lines
106-138) over the already-walked file list: skip unsupported extensions, skip
files reported as indexed in incremental mode, accumulate the extracted
(chunk, metadata) pairs of the rest, and mark each file producing chunks in
the in-memory metadata map. Returns the staged pairs, the mark events in
order, and the updated in-memory metadata. -/
def scanFiles (meta : List (String × IndexRecord)) (incremental : Bool) :
    List SrcFile → List (String × DocMeta) × List Event × List (String × IndexRecord)
  | [] => ([], [], meta)
  | f :: rest =>
    if f.ext ∉ SUPPORTED_FORMATS then scanFiles meta incremental rest
    else if incremental && is_file_indexed meta f then scanFiles meta incremental rest
    else if f.chunks = [] then scanFiles meta incremental rest
    else
      let r := scanFiles (mark_file_indexed meta f f.chunks.length) incremental rest
      (f.chunks ++ r.1, Event.markIndexed f.path f.chunks.length :: r.2.1, r.2.2)

/-- Model of `IndexingPipeline.index_all_documents(incremental, clear_existing)`
(lines 88-158): run the collection loop, and when any chunks were staged,
insert them through a single `add_documents` call (batch size 100, the
default) and persist the metadata store once, after the insert completes; a
raised insert error propagates and the persist never happens. Returns the
effect trace and the propagated error, if any. -/
def index_all_documents (meta0 : List (String × IndexRecord)) (files : List SrcFile)
    (incremental clear_existing : Bool) : List Event × Option String :=
  let s := scanFiles meta0 incremental files
  if s.1 = [] then (s.2.1, none)
  else
    let r := add_documents (s.1.map (fun p => p.1)) (s.1.map (fun p => p.2)) 100 clear_existing
    match r.2 with
    | some e => (s.2.1 ++ r.1, some e)
    | none => (s.2.1 ++ r.1 ++ [Event.persist], none)

/-- Whether an event is an in-memory `IndexedFileRecord` update. -/
def isMark : Event → Bool
  | Event.markIndexed _ _ => true
  | _ => false

/-- Whether an event is an insert batch. -/
def isInsert : Event → Bool
  | Event.insertBatch _ _ _ => true
  | _ => false

/-- The incremental-persistence property asserted by the specification for
`index_all_documents`: after every insert batch, a persist of the metadata
store occurs before the next insert batch begins. -/
def persistAfterEachBatch : List Event → Bool
  | [] => true
  | e :: rest =>
    (if isInsert e then (rest.takeWhile (fun x => !isInsert x)).any (fun x => x = Event.persist)
     else true) && persistAfterEachBatch rest

/-! ## Concrete instances used by counterexamples and witnesses -/

/-- A generic metadata value for concrete scenarios. -/
def exMeta : DocMeta := { source := "src.pdf", category := "policies", page := none }

/-- A collection returning two hits whatever is asked, for the reranking
counterexample: similarity order `d1` then `d2`. -/
def c4Coll : ℕ → Option String → List Entry := fun _ _ =>
  [{ doc := "d1", meta := exMeta, dist := 0, id := "i1" },
   { doc := "d2", meta := exMeta, dist := 1, id := "i2" }]

/-- A reranker preferring document `d2`. -/
def c4Rr : String → String → ℚ := fun _ d => if d = "d2" then 5 else 1

/-- A collection returning three hits, for the reranking witness. -/
def c4wColl : ℕ → Option String → List Entry := fun _ _ =>
  [{ doc := "d1", meta := exMeta, dist := 0, id := "i1" },
   { doc := "d2", meta := exMeta, dist := 1, id := "i2" },
   { doc := "d3", meta := exMeta, dist := 2, id := "i3" }]

/-- A file whose processing yields 101 chunks, so that the single
`add_documents` call of the indexing pass uses two insert batches. -/
def c1File : SrcFile :=
  { path := "data/documents/pdfs/handbook.pdf", ext := ".pdf", fileExists := true
    hash := "h1", mtime := 10
    chunks := (List.range 101).map (fun i => ("chunk " ++ natRepr i, exMeta)) }

/-- A collection with no documents at all. -/
def emptyColl : ℕ → Option String → List Entry := fun _ _ => []

/-- A completion oracle that always answers the same text. -/
def stubLlm : String → String → Except String String := fun _ _ => Except.ok "ok"

/-! ## Helper lemmas about `words` -/

/-- Unfolding of `words` for a leading whitespace character. -/
theorem words_cons_of_space {c : Char} (h : c.isWhitespace = true) (cs : List Char) :
    words (c :: cs) = words cs := by
  cases cs <;> simp [words, h]

/-- Unfolding of `words` for a single non-whitespace character. -/
theorem words_singleton {c : Char} (h : c.isWhitespace = false) : words [c] = [[c]] := by
  simp [words, h]

/-- Unfolding of `words` when a non-whitespace character is followed by a
whitespace character. -/
theorem words_cons_cons_of_space {c d : Char} (hc : c.isWhitespace = false)
    (hd : d.isWhitespace = true) (cs : List Char) :
    words (c :: d :: cs) = [c] :: words (d :: cs) := by
  simp [words, hc, hd]

/-- Unfolding of `words` when two non-whitespace characters are adjacent. -/
theorem words_cons_cons_of_nonspace {c d : Char} {cs w : List Char}
    {rest : List (List Char)} (hc : c.isWhitespace = false) (hd : d.isWhitespace = false)
    (h : words (d :: cs) = w :: rest) : words (c :: d :: cs) = (c :: w) :: rest := by
  simp [words, hc, hd, h]

/-- The token list of a text starting with a non-whitespace character is
nonempty. -/
theorem words_cons_nonspace_ex {d : Char} (cs : List Char) (hd : d.isWhitespace = false) :
    ∃ w rest, words (d :: cs) = w :: rest := by
  induction cs generalizing d with
  | nil => exact ⟨[d], [], words_singleton hd⟩
  | cons e cs2 ih =>
    by_cases he : e.isWhitespace
    · exact ⟨[d], words (e :: cs2), words_cons_cons_of_space hd he cs2⟩
    · obtain ⟨w, rest, hw⟩ := ih (d := e) (by simpa using he)
      exact ⟨d :: w, rest, words_cons_cons_of_nonspace hd (by simpa using he) hw⟩

/-- Tokenisation of a concatenation: either the boundary separates tokens and
the token lists concatenate, or the last token of the left part merges with
the first token of the right part. -/
theorem words_append (x z : List Char) :
    words (x ++ z) = words x ++ words z ∨
      ∃ G w₁ w₂ R, words x = G ++ [w₁] ∧ words z = w₂ :: R ∧
        words (x ++ z) = G ++ (w₁ ++ w₂) :: R := by
  induction x with
  | nil => left; simp [words]
  | cons c x' ih =>
    by_cases hc : c.isWhitespace
    · have h1 : words (c :: x') = words x' := words_cons_of_space hc x'
      have h2 : words ((c :: x') ++ z) = words (x' ++ z) := words_cons_of_space hc (x' ++ z)
      rw [h1, h2]; exact ih
    · have hc' : c.isWhitespace = false := by simpa using hc
      cases x' with
      | nil =>
        cases z with
        | nil => left; simp [words_singleton hc', words]
        | cons d z' =>
          by_cases hd : d.isWhitespace
          · left
            have h3 : words (c :: d :: z') = [c] :: words (d :: z') :=
              words_cons_cons_of_space hc' (by simpa using hd) z'
            simp [h3, words_singleton hc']
          · right
            obtain ⟨w, rest, hw⟩ := words_cons_nonspace_ex z' (by simpa using hd)
            refine ⟨[], [c], w, rest, words_singleton hc', hw, ?_⟩
            have h3 : words (c :: d :: z') = (c :: w) :: rest :=
              words_cons_cons_of_nonspace hc' (by simpa using hd) hw
            simpa using h3
      | cons d x'' =>
        by_cases hd : d.isWhitespace
        · have hd' : d.isWhitespace = true := by simpa using hd
          have h1 : words (c :: d :: x'') = [c] :: words (d :: x'') :=
            words_cons_cons_of_space hc' hd' x''
          have h2 : words (c :: d :: (x'' ++ z)) = [c] :: words (d :: (x'' ++ z)) :=
            words_cons_cons_of_space hc' hd' (x'' ++ z)
          have hsplit : (c :: d :: x'') ++ z = c :: d :: (x'' ++ z) := rfl
          have hsplit2 : (d :: x'') ++ z = d :: (x'' ++ z) := rfl
          rcases ih with hL | ⟨G, w₁, w₂, R, hG, hz, hGz⟩
          · left
            rw [hsplit, h2, h1, hsplit2] at *
            rw [hL]
            rfl
          · right
            refine ⟨[c] :: G, w₁, w₂, R, ?_, hz, ?_⟩
            · rw [h1, hG]; rfl
            · rw [hsplit, h2, hsplit2] at *
              rw [hGz]; rfl
        · have hd' : d.isWhitespace = false := by simpa using hd
          obtain ⟨w, rest, hw⟩ := words_cons_nonspace_ex x'' hd'
          have hx : words (c :: d :: x'') = (c :: w) :: rest :=
            words_cons_cons_of_nonspace hc' hd' hw
          obtain ⟨w', rest', hw'⟩ := words_cons_nonspace_ex (x'' ++ z) hd'
          have hxz : words (c :: d :: (x'' ++ z)) = (c :: w') :: rest' :=
            words_cons_cons_of_nonspace hc' hd' hw'
          have hsplit : (c :: d :: x'') ++ z = c :: d :: (x'' ++ z) := rfl
          have hsplit2 : (d :: x'') ++ z = d :: (x'' ++ z) := rfl
          rcases ih with hL | ⟨G, w₁, w₂, R, hG, hz, hGz⟩
          · left
            rw [hsplit2] at hL
            rw [hw, hw'] at hL
            simp only [List.cons_append] at hL
            injection hL with hww hrr
            rw [hsplit, hxz, hx, hww, hrr]
            rfl
          · right
            rw [hsplit2] at hGz
            cases G with
            | nil =>
              simp only [List.nil_append] at hG hGz
              rw [hG] at hw
              injection hw with hww hrr
              rw [hGz] at hw'
              injection hw' with hww2 hrr2
              refine ⟨[], c :: w₁, w₂, R, ?_, hz, ?_⟩
              · rw [hx, ← hww, ← hrr]
                rfl
              · rw [hsplit, hxz, ← hww2, ← hrr2]
                rfl
            | cons g G' =>
              rw [hG] at hw
              simp only [List.cons_append] at hw
              injection hw with hww hrr
              rw [hGz] at hw'
              simp only [List.cons_append] at hw'
              injection hw' with hww2 hrr2
              refine ⟨(c :: g) :: G', w₁, w₂, R, ?_, hz, ?_⟩
              · rw [hx, ← hww, ← hrr]
                rfl
              · rw [hsplit, hxz, ← hww2, ← hrr2]
                rfl

/-- All tokens of a text except possibly the last survive, as a prefix of the
token list, when the text is extended on the right. -/
theorem words_dropLast_front (a y : List Char) :
    (words a).dropLast <+: words (a ++ y) := by
  rcases words_append a y with hL | ⟨G, w₁, w₂, R, hG, _, hGz⟩
  · rw [hL]
    exact ( List.dropLast_prefix (words a)).trans ( List.prefix_append _ _)
  · rw [hG, hGz, List.dropLast_concat]
    exact ⟨(w₁ ++ w₂) :: R, rfl⟩

/-- All tokens of a text except possibly the first survive, as a suffix of the
token list, when the text is extended on the left. -/
theorem words_tail_back (x z : List Char) :
    (words z).tail <:+ words (x ++ z) := by
  rcases words_append x z with hL | ⟨G, w₁, w₂, R, _, hz, hGz⟩
  · rw [hL]
    exact (List.tail_suffix (words z)).trans (List.suffix_append _ _)
  · rw [hz, hGz]
    exact ⟨G ++ [w₁ ++ w₂], by simp⟩

/-- The tail of a prefix is a prefix of the tail. -/
theorem tail_prefix_mono {α : Type} {l₁ l₂ : List α} (h : l₁ <+: l₂) :
    l₁.tail <+: l₂.tail := by
  obtain ⟨r, rfl⟩ := h
  cases l₁ with
  | nil => exact List.nil_prefix
  | cons a t => exact ⟨r, rfl⟩

/-- Every interior token of an infix of a text (neither its first nor its
last token) is a token of the whole text. -/
theorem mem_words_of_infix_interior {a chunk : List Char} (h : a <:+: chunk)
    {t : List Char} (ht : t ∈ ((words a).dropLast).tail) : t ∈ words chunk := by
  obtain ⟨u, v, huv⟩ := h
  have h1 : (words a).dropLast <+: words (a ++ v) := words_dropLast_front a v
  have h2 : ((words a).dropLast).tail <+: (words (a ++ v)).tail := tail_prefix_mono h1
  have h3 : (words (a ++ v)).tail <:+ words (u ++ (a ++ v)) := words_tail_back u (a ++ v)
  have h4 : t ∈ (words (a ++ v)).tail := h2.subset ht
  have h5 : t ∈ words (u ++ (a ++ v)) := h3.subset h4
  rwa [show u ++ (a ++ v) = u ++ a ++ v by simp, huv] at h5

/-! ## Helper lemmas about lists, sorting and filtering -/

/-- Strengthening the filter predicate can only shrink the filtered list. -/
theorem filter_sublist_mono {α : Type} {p q : α → Bool} (l : List α)
    (h : ∀ a, p a = true → q a = true) : (l.filter p).Sublist (l.filter q) := by
  induction l with
  | nil => simp
  | cons a l ih =>
    by_cases hp : p a = true
    · rw [List.filter_cons_of_pos hp, List.filter_cons_of_pos (h a hp)]
      exact ih.cons₂ a
    · rw [List.filter_cons_of_neg (by simpa using hp)]
      by_cases hq : q a = true
      · rw [List.filter_cons_of_pos hq]
        exact ih.cons a
      · rw [List.filter_cons_of_neg (by simpa using hq)]
        exact ih

/-- Length of a descending insertion. -/
theorem length_insertDescBy {α : Type} (f : α → ℚ) (a : α) (l : List α) :
    (insertDescBy f a l).length = l.length + 1 := by
  induction l with
  | nil => rfl
  | cons b l ih =>
    by_cases h : f b ≤ f a <;> simp [insertDescBy, h, ih]

/-- Length of the descending sort. -/
theorem length_sortDescBy {α : Type} (f : α → ℚ) (l : List α) :
    (sortDescBy f l).length = l.length := by
  induction l with
  | nil => rfl
  | cons a l ih => simp [sortDescBy, length_insertDescBy, ih]

/-- Membership in a descending insertion. -/
theorem mem_insertDescBy {α : Type} {f : α → ℚ} {a x : α} {l : List α} :
    x ∈ insertDescBy f a l ↔ x = a ∨ x ∈ l := by
  induction l with
  | nil => simp [insertDescBy]
  | cons b l ih =>
    by_cases h : f b ≤ f a
    · simp only [insertDescBy, if_pos h, List.mem_cons]
    · simp only [insertDescBy, if_neg h, List.mem_cons, ih]
      tauto

/-- A descending insertion into a descending-sorted list is sorted. -/
theorem pairwise_insertDescBy {α : Type} {f : α → ℚ} (a : α) {l : List α}
    (h : l.Pairwise (fun x y => f y ≤ f x)) :
    (insertDescBy f a l).Pairwise (fun x y => f y ≤ f x) := by
  induction l with
  | nil => simp [insertDescBy]
  | cons b l ih =>
    rcases List.pairwise_cons.mp h with ⟨hb, hl⟩
    by_cases hba : f b ≤ f a
    · simp only [insertDescBy, if_pos hba]
      refine List.pairwise_cons.mpr ⟨?_, h⟩
      intro x hx
      rcases List.mem_cons.mp hx with rfl | hx
      · exact hba
      · exact (hb x hx).trans hba
    · simp only [insertDescBy, if_neg hba]
      refine List.pairwise_cons.mpr ⟨?_, ih hl⟩
      intro x hx
      rcases mem_insertDescBy.mp hx with rfl | hx
      · exact le_of_not_le hba
      · exact hb x hx

/-- The descending sort is sorted: scores along it are non-increasing. -/
theorem pairwise_sortDescBy {α : Type} (f : α → ℚ) (l : List α) :
    (sortDescBy f l).Pairwise (fun x y => f y ≤ f x) := by
  induction l with
  | nil => simp [sortDescBy]
  | cons a l ih => exact pairwise_insertDescBy a ih

/-! ## Injectivity of the decimal numeral rendering -/

/-- Distinct decimal digits render to distinct characters. -/
theorem digitChar_inj_lt : ∀ a, a < 10 → ∀ b, b < 10 →
    Nat.digitChar a = Nat.digitChar b → a = b := by decide

/-- With positive fuel the digit list is never empty. -/
theorem natReprAux_ne_nil {f n : ℕ} (hf : 0 < f) : natReprAux f n ≠ [] := by
  cases f with
  | zero => omega
  | succ f =>
    by_cases h : n < 10 <;> simp [natReprAux, h]

/-- The digit list determines the number, given sufficient fuel on both
sides. -/
theorem natReprAux_inj : ∀ f n g m, 0 < f → 0 < g → n < 10 ^ f → m < 10 ^ g →
    natReprAux f n = natReprAux g m → n = m := by
  intro f
  induction f with
  | zero => intro n g m hf; omega
  | succ f ihf =>
    intro n g m _ hg hn hm heq
    cases g with
    | zero => omega
    | succ g =>
      by_cases h1 : n < 10 <;> by_cases h2 : m < 10
      · simp only [natReprAux, if_pos h1, if_pos h2] at heq
        injection heq with hdc
        exact digitChar_inj_lt n h1 m h2 hdc
      · exfalso
        have hg1 : 0 < g := by
          by_contra hg0
          have : g = 0 := by omega
          subst this
          simp at hm
          omega
        simp only [natReprAux, if_pos h1, if_neg h2] at heq
        apply natReprAux_ne_nil hg1 (n := m / 10)
        have hlen := congrArg List.length heq
        simp only [List.length_cons, List.length_append, List.length_nil] at hlen
        exact List.length_eq_zero.mp (by omega)
      · exfalso
        have hf1 : 0 < f := by
          by_contra hf0
          have : f = 0 := by omega
          subst this
          simp at hn
          omega
        simp only [natReprAux, if_neg h1, if_pos h2] at heq
        apply natReprAux_ne_nil hf1 (n := n / 10)
        have hlen := congrArg List.length heq
        simp only [List.length_cons, List.length_append, List.length_nil] at hlen
        exact List.length_eq_zero.mp (by omega)
      · have hf1 : 0 < f := by
          by_contra hf0
          have : f = 0 := by omega
          subst this
          simp at hn
          omega
        have hg1 : 0 < g := by
          by_contra hg0
          have : g = 0 := by omega
          subst this
          simp at hm
          omega
        simp only [natReprAux, if_neg h1, if_neg h2] at heq
        have hrev := congrArg List.reverse heq
        simp only [List.reverse_append, List.reverse_cons, List.reverse_nil,
          List.nil_append, List.singleton_append] at hrev
        injection hrev with hd htl
        have hmod : n % 10 = m % 10 :=
          digitChar_inj_lt _ (Nat.mod_lt n (by norm_num)) _ (Nat.mod_lt m (by norm_num)) hd
        have hdiveq : natReprAux f (n / 10) = natReprAux g (m / 10) := by
          have := congrArg List.reverse htl
          simpa using this
        have hn10 : n / 10 < 10 ^ f := by
          rw [Nat.div_lt_iff_lt_mul (by norm_num)]
          calc n < 10 ^ (f + 1) := hn
          _ = 10 ^ f * 10 := by ring
        have hm10 : m / 10 < 10 ^ g := by
          rw [Nat.div_lt_iff_lt_mul (by norm_num)]
          calc m < 10 ^ (g + 1) := hm
          _ = 10 ^ g * 10 := by ring
        have hdiv : n / 10 = m / 10 := ihf (n / 10) g (m / 10) hf1 hg1 hn10 hm10 hdiveq
        omega

/-- The decimal numeral rendering is injective. -/
theorem natRepr_injective : Function.Injective natRepr := by
  intro n m h
  have hdata : natReprAux (n + 1) n = natReprAux (m + 1) m := congrArg String.data h
  have hn : n < 10 ^ (n + 1) :=
    lt_of_lt_of_le (Nat.lt_pow_self (by norm_num) n)
      (Nat.pow_le_pow_right (by norm_num) (by omega))
  have hm : m < 10 ^ (m + 1) :=
    lt_of_lt_of_le (Nat.lt_pow_self (by norm_num) m)
      (Nat.pow_le_pow_right (by norm_num) (by omega))
  exact natReprAux_inj (n + 1) n (m + 1) m (by omega) (by omega) hn hm hdata

/-- The generated document ids are injective in the chunk index. -/
theorem docId_injective : Function.Injective (fun k : ℕ => "doc_" ++ natRepr k) := by
  intro n m h
  apply natRepr_injective
  have hdata := congrArg String.data h
  simp only [String.data_append] at hdata
  have h2 : (natRepr n).data = (natRepr m).data := List.append_cancel_left hdata
  cases hr1 : natRepr n with
  | mk d1 =>
    cases hr2 : natRepr m with
    | mk d2 =>
      rw [hr1, hr2] at h2
      exact congrArg String.mk h2

/-! ## The batching loop enumerates exactly the chunk indices -/

/-- Concatenating the index windows of all batches of the Python loop
`for i in range(0, n, batch_size)` yields exactly `0, 1, ..., n - 1`. -/
theorem flatten_batches (bs : ℕ) (hbs : 0 < bs) :
    ∀ n, (batchStarts n bs).flatMap
      (fun i => (List.range (min bs (n - i))).map (fun j => i + j)) = List.range n := by
  intro n
  induction n using Nat.strong_induction_on with
  | _ n ih =>
    rcases Nat.eq_zero_or_pos n with rfl | hn
    · have h0 : (0 + bs - 1) / bs = 0 := Nat.div_eq_of_lt (by omega)
      simp [batchStarts, h0]
    · by_cases hnbs : n ≤ bs
      · have h1 : (n + bs - 1) / bs = 1 := by
          apply Nat.div_eq_of_lt_le (by omega) (by omega)
        have hmin : min bs n = n := by omega
        simp [batchStarts, h1, List.range_succ_eq_map, Nat.sub_zero, hmin]
      · have hq : n + bs - 1 = (n - bs + bs - 1) + bs := by omega
        have h2 : (n + bs - 1) / bs = (n - bs + bs - 1) / bs + 1 := by
          rw [hq, Nat.add_div_right _ hbs]
        have hmin0 : min bs n = bs := by omega
        have hstep : ∀ k : ℕ,
            ((List.range (min bs (n - (k * bs + bs)))).map (fun j => (k * bs + bs) + j)) =
              ((List.range (min bs (n - bs - k * bs))).map (fun j => k * bs + j)).map
                (fun t => bs + t) := by
          intro k
          rw [List.map_map]
          have harg : n - (k * bs + bs) = n - bs - k * bs := by omega
          rw [harg]
          apply List.map_congr_left
          intro j _
          simp only [Function.comp_apply]
          omega
        rw [batchStarts, h2, List.range_succ_eq_map, List.map_cons, List.flatMap_cons,
          List.map_map, List.flatMap_map]
        have hbody : (fun k =>
            (fun i => (List.range (min bs (n - i))).map (fun j => i + j))
              (((fun k => k * bs) ∘ Nat.succ) k)) =
            (fun k => ((List.range (min bs (n - bs - k * bs))).map
              (fun j => k * bs + j)).map (fun t => bs + t)) := by
          funext k
          simp only [Function.comp_apply]
          rw [Nat.succ_mul]
          exact hstep k
        rw [hbody]
        have hpull : (List.range ((n - bs + bs - 1) / bs)).flatMap
            (fun k => ((List.range (min bs (n - bs - k * bs))).map
              (fun j => k * bs + j)).map (fun t => bs + t)) =
            ((List.range ((n - bs + bs - 1) / bs)).flatMap
              (fun k => (List.range (min bs (n - bs - k * bs))).map
                (fun j => k * bs + j))).map (fun t => bs + t) := by
          rw [List.map_flatMap]
        rw [hpull]
        have hih : (List.range ((n - bs + bs - 1) / bs)).flatMap
            (fun k => (List.range (min bs (n - bs - k * bs))).map (fun j => k * bs + j)) =
            List.range (n - bs) := by
          have := ih (n - bs) (by omega)
          rw [batchStarts, List.flatMap_map] at this
          exact this
        rw [hih]
        have hfirst : (List.range (bs ⊓ (n - 0 * bs))).map (fun j => 0 * bs + j) =
            List.range bs := by
          simp [Nat.zero_mul, Nat.sub_zero, hmin0]
        rw [hfirst]
        have hfin := List.range_add bs (n - bs)
        rw [show bs + (n - bs) = n by omega] at hfin
        rw [hfin]

/-- The ids assigned by one `add_documents` call over nonempty, length-matched
inputs are exactly `doc_0 ... doc_(n-1)`, in order. -/
theorem traceIds_add_documents (chunks : List String) (metas : List DocMeta)
    (bs : ℕ) (clr : Bool) (hbs : 0 < bs) (hc : chunks ≠ []) (hm : metas ≠ [])
    (hlen : chunks.length = metas.length) :
    traceIds (add_documents chunks metas bs clr) =
      (List.range chunks.length).map (fun k => "doc_" ++ natRepr k) := by
  have h1 : add_documents chunks metas bs clr =
      ((if clr then [Event.clearColl] else []) ++
        (batchStarts chunks.length bs).map (fun i =>
          Event.insertBatch ((chunks.drop i).take bs) ((metas.drop i).take bs)
            (genBatchIds i ((chunks.drop i).take bs).length)), none) := by
    unfold add_documents
    rw [if_neg (by simp [hc, hm]), if_neg (by simp [hlen])]
  rw [h1]
  simp only [traceIds, List.flatMap_append, List.flatMap_map]
  have hclear : List.flatMap (if clr then [Event.clearColl] else [])
      (fun e => match e with
        | Event.insertBatch _ _ ids => ids
        | _ => ([] : List String)) = [] := by
    cases clr <;> rfl
  rw [hclear, List.nil_append]
  have hlen2 : ∀ i, ((chunks.drop i).take bs).length = min bs (chunks.length - i) := by
    intro i
    simp [List.length_take, List.length_drop]
  have hbody : (fun i => (fun e => match e with
      | Event.insertBatch _ _ ids => ids
      | _ => ([] : List String))
        (Event.insertBatch ((chunks.drop i).take bs) ((metas.drop i).take bs)
          (genBatchIds i ((chunks.drop i).take bs).length))) =
      (fun i => ((List.range (min bs (chunks.length - i))).map (fun j => i + j)).map
        (fun k => "doc_" ++ natRepr k)) := by
    funext i
    show genBatchIds i ((chunks.drop i).take bs).length = _
    rw [hlen2 i, genBatchIds, List.map_map]
    rfl
  rw [hbody]
  rw [← List.map_flatMap]
  rw [flatten_batches bs hbs chunks.length]

/-! ## Structure of `search` -/

/-- Threshold filtering happens last: a thresholded search is the filter of
the same search without a threshold. -/
theorem search_eq_filter (coll : ℕ → Option String → List Entry)
    (reranker : Option (String → String → ℚ)) (query : String) (top_k : Option ℕ)
    (catf : Option String) (t : ℚ) (use_rr : Bool) :
    search coll reranker query top_k catf (some t) use_rr =
      (search coll reranker query top_k catf none use_rr).filter
        (fun e => decide (t ≤ 1 - e.dist)) := by
  unfold search
  rcases hraw : coll (if use_rr && reranker.isSome then (top_k.getD TOP_K_RESULTS) * 2
      else top_k.getD TOP_K_RESULTS) catf with _ | ⟨e, es⟩
  · simp_all
  · simp_all

/-- The result of `search` never exceeds `top_k` entries. -/
theorem search_length_le (coll : ℕ → Option String → List Entry)
    (reranker : Option (String → String → ℚ)) (query : String) (top_k : Option ℕ)
    (catf : Option String) (thr : Option ℚ) (use_rr : Bool) :
    (search coll reranker query top_k catf thr use_rr).length ≤ top_k.getD TOP_K_RESULTS := by
  have hnone : ∀ urr, (search coll reranker query top_k catf none urr).length ≤
      top_k.getD TOP_K_RESULTS := by
    intro urr
    unfold search
    rcases hraw : coll (if urr && reranker.isSome then (top_k.getD TOP_K_RESULTS) * 2
        else top_k.getD TOP_K_RESULTS) catf with _ | ⟨e, es⟩
    · cases reranker <;> simp_all
    · cases reranker with
      | none => simp_all [List.length_take]
      | some rr =>
        simp_all only []
        split
        · simp
        · split
          · exact List.length_take_le _ _
          · exact List.length_take_le _ _
  cases thr with
  | none => exact hnone use_rr
  | some t =>
    rw [search_eq_filter]
    exact le_trans (List.length_filter_le _ _) (hnone use_rr)

/-- When reranking is active and more candidates than `top_k` came back, the
search result is the descending rerank-sorted candidate list truncated to
`top_k`. -/
theorem search_rerank_eq (coll : ℕ → Option String → List Entry)
    (rr : String → String → ℚ) (query : String) (top_k : Option ℕ) (catf : Option String)
    (hlen : top_k.getD TOP_K_RESULTS < (coll ((top_k.getD TOP_K_RESULTS) * 2) catf).length) :
    search coll (some rr) query top_k catf none true =
      (sortDescBy (fun e => rr query e.doc) (coll ((top_k.getD TOP_K_RESULTS) * 2) catf)).take
        (top_k.getD TOP_K_RESULTS) := by
  have hne : coll ((top_k.getD TOP_K_RESULTS) * 2) catf ≠ [] := by
    intro h0
    rw [h0] at hlen
    simp at hlen
  unfold search
  simp only [Option.isSome_some, Bool.and_true, Bool.true_and, if_pos rfl]
  simp [hne, hlen]

/-! ## Claim C4: reranking contract of `search` -/

/-- C4 (amended): the result of `search` never exceeds `top_k` entries
whatever the reranking configuration; the search consults the backing
collection only through one fetch of `2 * top_k` nearest neighbours when
reranking is requested and a reranker is configured (`top_k` otherwise); and
when reranking is requested, a reranker is configured and the fetch returned
more than `top_k` candidates, the results are ordered by descending rerank
score. (The claim as frozen also asserts the descending rerank order when
the fetch returned at most `top_k` candidates; the code skips reranking in
that case, see the counterexample.) -/
theorem search_rerank_contract (coll : ℕ → Option String → List Entry)
    (reranker : Option (String → String → ℚ)) (query : String) (top_k : Option ℕ)
    (catf : Option String) (thr : Option ℚ) (use_rr : Bool) :
    ((search coll reranker query top_k catf thr use_rr).length ≤ top_k.getD TOP_K_RESULTS)
    ∧ (∀ coll2 : ℕ → Option String → List Entry,
        coll2 (if use_rr && reranker.isSome then (top_k.getD TOP_K_RESULTS) * 2
            else top_k.getD TOP_K_RESULTS) catf =
          coll (if use_rr && reranker.isSome then (top_k.getD TOP_K_RESULTS) * 2
            else top_k.getD TOP_K_RESULTS) catf →
        search coll2 reranker query top_k catf thr use_rr =
          search coll reranker query top_k catf thr use_rr)
    ∧ (∀ rr, reranker = some rr → use_rr = true →
        top_k.getD TOP_K_RESULTS < (coll ((top_k.getD TOP_K_RESULTS) * 2) catf).length →
        List.Pairwise (fun a b => rr query b.doc ≤ rr query a.doc)
          (search coll reranker query top_k catf thr use_rr)) := by
  refine ⟨search_length_le coll reranker query top_k catf thr use_rr, ?_, ?_⟩
  · intro coll2 h
    simp only [search]
    rw [h]
  · rintro rr rfl rfl hlen
    have hsorted : List.Pairwise (fun a b => rr query b.doc ≤ rr query a.doc)
        (search coll (some rr) query top_k catf none true) := by
      rw [search_rerank_eq coll rr query top_k catf hlen]
      exact List.Pairwise.sublist (List.take_sublist _ _) (pairwise_sortDescBy _ _)
    cases thr with
    | none => exact hsorted
    | some t =>
      rw [search_eq_filter]
      exact List.Pairwise.sublist (List.filter_sublist _) hsorted

/-- C4 counterexample: with reranking requested, a reranker configured and
`top_k = 2`, a fetch of exactly two candidates is returned in plain
similarity order, not sorted by descending rerank score as the claim
states. -/
theorem search_rerank_not_sorted_example :
    search c4Coll (some c4Rr) "q" (some 2) none none true =
      [{ doc := "d1", meta := exMeta, dist := 0, id := "i1" },
       { doc := "d2", meta := exMeta, dist := 1, id := "i2" }]
    ∧ ¬ List.Pairwise (fun a b => c4Rr "q" b.doc ≤ c4Rr "q" a.doc)
        (search c4Coll (some c4Rr) "q" (some 2) none none true) := by
  exact ⟨by decide, by decide⟩

/-- Witness instantiating the C4 theorem: three candidates, `top_k = 1`. -/
theorem search_rerank_contract_witness :
    List.Pairwise (fun a b => c4Rr "q" b.doc ≤ c4Rr "q" a.doc)
      (search c4wColl (some c4Rr) "q" (some 1) none none true) :=
  (search_rerank_contract c4wColl (some c4Rr) "q" (some 1) none none true).2.2
    c4Rr rfl rfl (by decide)

/-! ## Claim C5: similarity threshold filtering -/

/-- C5: every result returned under a similarity threshold `t` has similarity
`1 - distance` at least `t`, and for fixed query, `top_k` and filters,
raising the threshold never increases the number of results. -/
theorem search_threshold_filtering (coll : ℕ → Option String → List Entry)
    (reranker : Option (String → String → ℚ)) (query : String) (top_k : Option ℕ)
    (catf : Option String) (use_rr : Bool) (t : ℚ) :
    (∀ e ∈ search coll reranker query top_k catf (some t) use_rr, t ≤ 1 - e.dist)
    ∧ (∀ t2 : ℚ, t ≤ t2 →
        (search coll reranker query top_k catf (some t2) use_rr).length ≤
          (search coll reranker query top_k catf (some t) use_rr).length) := by
  constructor
  · intro e he
    rw [search_eq_filter] at he
    exact of_decide_eq_true (List.mem_filter.mp he).2
  · intro t2 ht
    rw [search_eq_filter coll reranker query top_k catf t2 use_rr,
      search_eq_filter coll reranker query top_k catf t use_rr]
    apply List.Sublist.length_le
    apply filter_sublist_mono
    intro a ha
    exact decide_eq_true (le_trans ht (of_decide_eq_true ha))

/-- Witness instantiating the C5 theorem: thresholds 0 and 1 on a two-entry
collection. -/
theorem search_threshold_filtering_witness :
    (search c4Coll (some c4Rr) "q" (some 2) none (some 1) true).length ≤
      (search c4Coll (some c4Rr) "q" (some 2) none (some 0) true).length :=
  (search_threshold_filtering c4Coll (some c4Rr) "q" (some 2) none true 0).2 1 (by decide)

/-! ## Claim C10: hybrid search ignores its keyword weight -/

/-- C10: `hybrid_search` returns identical results for any two values of
`keyword_weight`; it degrades to the reranked `search` over `top_k` when a
reranker is configured, and to the plain semantic `search` over `2 * top_k`
without reranking otherwise. -/
theorem hybrid_search_ignores_keyword_weight (coll : ℕ → Option String → List Entry)
    (reranker : Option (String → String → ℚ)) (query : String) (top_k : Option ℕ)
    (catf : Option String) (w1 w2 : ℚ) :
    hybrid_search coll reranker query top_k catf w1 =
      hybrid_search coll reranker query top_k catf w2
    ∧ (reranker.isSome = true →
        hybrid_search coll reranker query top_k catf w1 =
          search coll reranker query (some (top_k.getD TOP_K_RESULTS)) catf none true)
    ∧ (reranker = none →
        hybrid_search coll reranker query top_k catf w1 =
          search coll reranker query (some ((top_k.getD TOP_K_RESULTS) * 2)) catf none false) := by
  refine ⟨rfl, ?_, ?_⟩
  · intro h
    cases reranker with
    | none => simp at h
    | some rr => rfl
  · intro h
    subst h
    rfl

/-- Witness instantiating the C10 theorem with a configured reranker and two
distinct keyword weights. -/
theorem hybrid_search_witness :
    hybrid_search c4Coll (some c4Rr) "q" (some 1) none 0 =
      search c4Coll (some c4Rr) "q" (some 1) none none true :=
  (hybrid_search_ignores_keyword_weight c4Coll (some c4Rr) "q" (some 1) none 0 1).2.1 rfl

/-! ## Claim C8: input validation of `add_documents` -/

/-- C8 counterexample: with an empty chunk list and a nonempty metadata list
the lengths differ, yet the call returns silently with no error (the
empty-input early return fires before the length validation). -/
theorem add_documents_empty_mismatch_silent :
    ([] : List String).length ≠ [exMeta].length ∧
    add_documents [] [exMeta] 100 true = ([], none) := by
  exact ⟨by decide, rfl⟩

/-- C8 (amended): whenever both lists are nonempty and their lengths differ,
`add_documents` raises the validation error before emitting any effect: no
batch is inserted and the collection is not cleared, whatever
`clear_existing` says. -/
theorem add_documents_mismatch_rejected (chunks : List String) (metas : List DocMeta)
    (bs : ℕ) (clr : Bool) (hc : chunks ≠ []) (hm : metas ≠ [])
    (hne : chunks.length ≠ metas.length) :
    add_documents chunks metas bs clr =
      ([], some "Chunks and metadata must have the same length") := by
  unfold add_documents
  rw [if_neg (by simp [hc, hm]), if_pos hne]

/-- Witness instantiating the C8 theorem: one chunk against two metadata
records, with `clear_existing = true`. -/
theorem add_documents_mismatch_rejected_witness :
    add_documents ["a"] [exMeta, exMeta] 100 true =
      ([], some "Chunks and metadata must have the same length") :=
  add_documents_mismatch_rejected ["a"] [exMeta, exMeta] 100 true
    (by decide) (by decide) (by decide)

/-! ## Claim C6: incremental change detection -/

/-- C6: a stored record whose hash does not match the recomputed file hash
but whose mtime matches makes `_is_file_indexed` report the file as up to
date: the file is trusted as unchanged from the matching mtime alone, even
though the recomputed hash differs (the code comment announces a hash
comparison that the mtime branch does not perform). -/
theorem is_file_indexed_mtime_alone :
    is_file_indexed [("f", { hash := "a", mtime := 5, chunk_count := 1 })]
      { path := "f", ext := ".txt", fileExists := true, hash := "b", mtime := 5,
        chunks := [] } = true
    ∧ ("a" : String) ≠ "b" := by
  exact ⟨rfl, by decide⟩

/-! ## Claim C3: zero retrieved documents short-circuit the RAG engine -/

/-- C3: when retrieval returns zero documents, `RAGEngine.query` answers with
the fixed not-found text, no citations, `is_grounded = false` and
`retrieved_docs = 0`, and the completion service is never invoked. -/
theorem ragQuery_empty_shortcircuit (coll : ℕ → Option String → List Entry)
    (reranker : Option (String → String → ℚ))
    (llm : String → String → Except String String) (question : String)
    (top_k : Option ℕ) (catf : Option String) (thr : Option ℚ)
    (h : search coll reranker (preprocess_query question) top_k catf thr true = []) :
    ragQuery coll reranker llm question top_k catf thr =
      { answer := notFoundAnswer, citations := [], is_grounded := false,
        retrieved_docs := 0, error := none, llm_called := false } := by
  simp only [ragQuery]
  rw [h]
  rfl

/-- Witness instantiating the C3 theorem on an empty collection. -/
theorem ragQuery_empty_shortcircuit_witness :
    ragQuery emptyColl none stubLlm "library hours" none none none =
      { answer := notFoundAnswer, citations := [], is_grounded := false,
        retrieved_docs := 0, error := none, llm_called := false } :=
  ragQuery_empty_shortcircuit emptyColl none stubLlm "library hours" none none none rfl

/-! ## Claim C2: intent classification cascade -/

/-- C2 counterexample: the query named by the claim classifies as
`fee_query`, not `policy_comparison`: the comparison patterns match
(`compare`), but the policy-pair extraction finds no `<name> policy`
phrase, so the comparison branch falls through and the fee patterns win. -/
theorem classify_intent_example_fee :
    classify_intent ("compare B.Tech and M.Tech fee structures".toList) = "fee_query"
    ∧ ("fee_query" : String) ≠ "policy_comparison"
    ∧ anyPattern comparisonPatterns
        ("compare B.Tech and M.Tech fee structures".toList.map Char.toLower) = true := by
  refine ⟨by decide, by decide, by decide⟩

/-- C2 (amended): `classify_intent` runs the cascade with fixed precedence
comparison, summary, fee, calendar, search, general, where the comparison
check succeeds only when its patterns match and at least two policy names
extract, the summary check succeeds only when its patterns match and the
name extraction succeeds, and the remaining intents are chosen by pattern
match alone (their parameters, when inextractable, are left unset without
changing the intent). -/
theorem classify_intent_cascade (query : List Char) :
    (classify_intent query = "policy_comparison" ↔
      (anyPattern comparisonPatterns (query.map Char.toLower) &&
        decide (2 ≤ countPolicies (query.map Char.toLower))) = true)
    ∧ (classify_intent query = "policy_summary" ↔
      ((anyPattern comparisonPatterns (query.map Char.toLower) &&
          decide (2 ≤ countPolicies (query.map Char.toLower))) = false ∧
        (anyPattern summaryPatterns (query.map Char.toLower) &&
          summaryExtractOk (query.map Char.toLower)) = true))
    ∧ (classify_intent query = "fee_query" ↔
      ((anyPattern comparisonPatterns (query.map Char.toLower) &&
          decide (2 ≤ countPolicies (query.map Char.toLower))) = false ∧
        (anyPattern summaryPatterns (query.map Char.toLower) &&
          summaryExtractOk (query.map Char.toLower)) = false ∧
        anyPattern feePatterns (query.map Char.toLower) = true))
    ∧ (classify_intent query = "calendar_query" ↔
      ((anyPattern comparisonPatterns (query.map Char.toLower) &&
          decide (2 ≤ countPolicies (query.map Char.toLower))) = false ∧
        (anyPattern summaryPatterns (query.map Char.toLower) &&
          summaryExtractOk (query.map Char.toLower)) = false ∧
        anyPattern feePatterns (query.map Char.toLower) = false ∧
        anyPattern calendarPatterns (query.map Char.toLower) = true))
    ∧ (classify_intent query = "policy_search" ↔
      ((anyPattern comparisonPatterns (query.map Char.toLower) &&
          decide (2 ≤ countPolicies (query.map Char.toLower))) = false ∧
        (anyPattern summaryPatterns (query.map Char.toLower) &&
          summaryExtractOk (query.map Char.toLower)) = false ∧
        anyPattern feePatterns (query.map Char.toLower) = false ∧
        anyPattern calendarPatterns (query.map Char.toLower) = false ∧
        anyPattern searchPatterns (query.map Char.toLower) = true))
    ∧ (classify_intent query = "general" ↔
      ((anyPattern comparisonPatterns (query.map Char.toLower) &&
          decide (2 ≤ countPolicies (query.map Char.toLower))) = false ∧
        (anyPattern summaryPatterns (query.map Char.toLower) &&
          summaryExtractOk (query.map Char.toLower)) = false ∧
        anyPattern feePatterns (query.map Char.toLower) = false ∧
        anyPattern calendarPatterns (query.map Char.toLower) = false ∧
        anyPattern searchPatterns (query.map Char.toLower) = false)) := by
  simp only [classify_intent]
  cases h1 : anyPattern comparisonPatterns (query.map Char.toLower) &&
      decide (2 ≤ countPolicies (query.map Char.toLower)) <;>
    cases h2 : anyPattern summaryPatterns (query.map Char.toLower) &&
      summaryExtractOk (query.map Char.toLower) <;>
    cases h3 : anyPattern feePatterns (query.map Char.toLower) <;>
    cases h4 : anyPattern calendarPatterns (query.map Char.toLower) <;>
    cases h5 : anyPattern searchPatterns (query.map Char.toLower) <;>
    simp [h1, h2, h3, h4, h5]

/-! ## Claim C7: chunk id assignment -/

/-- C7 counterexample: ids are reused across a clear-and-rebuild boundary:
a first call assigns `doc_0`, and a later call with `clear_existing = true`
assigns `doc_0` again. -/
theorem add_documents_ids_reused :
    traceIds (add_documents ["chunk a"] [exMeta] 100 false) = ["doc_0"]
    ∧ traceIds (add_documents ["chunk b"] [exMeta] 100 true) = ["doc_0"] := by
  exact ⟨by decide, by decide⟩

/-- C7 (amended): within one `add_documents` call the assigned ids are
collision-free; but they are the deterministic sequence
`doc_0 ... doc_(n-1)`, restarted from `doc_0` on every call, so any two
calls with at least one chunk each share ids, including across a
clear-and-rebuild boundary. -/
theorem add_documents_ids_deterministic (chunks : List String) (metas : List DocMeta)
    (bs : ℕ) (clr : Bool) (hbs : 0 < bs) (hc : chunks ≠ []) (hm : metas ≠ [])
    (hlen : chunks.length = metas.length) :
    traceIds (add_documents chunks metas bs clr) =
      (List.range chunks.length).map (fun k => "doc_" ++ natRepr k)
    ∧ (traceIds (add_documents chunks metas bs clr)).Nodup := by
  have h := traceIds_add_documents chunks metas bs clr hbs hc hm hlen
  refine ⟨h, ?_⟩
  rw [h]
  exact List.Nodup.map docId_injective (List.nodup_range chunks.length)

/-- Witness instantiating the C7 theorem: three chunks in batches of two. -/
theorem add_documents_ids_deterministic_witness :
    traceIds (add_documents ["a", "b", "c"] [exMeta, exMeta, exMeta] 2 true) =
      (List.range (["a", "b", "c"] : List String).length).map
        (fun k => "doc_" ++ natRepr k)
    ∧ (traceIds (add_documents ["a", "b", "c"] [exMeta, exMeta, exMeta] 2 true)).Nodup :=
  add_documents_ids_deterministic ["a", "b", "c"] [exMeta, exMeta, exMeta] 2 true
    (by decide) (by decide) (by decide) (by decide)

/-! ## Trace structure of the indexing pass -/

/-- Every event emitted by the collection loop is a record update. -/
theorem scanFiles_marks (inc : Bool) (files : List SrcFile) :
    ∀ meta, ∀ e ∈ (scanFiles meta inc files).2.1, isMark e = true := by
  induction files with
  | nil =>
    intro meta e he
    simp [scanFiles] at he
  | cons f rest ih =>
    intro meta e he
    by_cases hsup : f.ext ∉ SUPPORTED_FORMATS
    · simp only [scanFiles, if_pos hsup] at he
      exact ih meta e he
    · by_cases hidx : (inc && is_file_indexed meta f) = true
      · simp only [scanFiles, if_neg hsup, if_pos hidx] at he
        exact ih meta e he
      · by_cases hch : f.chunks = []
        · simp only [scanFiles, if_neg hsup, if_neg hidx, if_pos hch] at he
          exact ih meta e he
        · simp only [scanFiles, if_neg hsup, if_neg hidx, if_neg hch] at he
          rcases List.mem_cons.mp he with rfl | he2
          · rfl
          · exact ih _ e he2

/-- Every event emitted by `add_documents` is a clear or an insert batch:
never a record update, never a persist. -/
theorem add_documents_no_mark_persist (chunks : List String) (metas : List DocMeta)
    (bs : ℕ) (clr : Bool) :
    ∀ e ∈ (add_documents chunks metas bs clr).1, isMark e = false ∧ e ≠ Event.persist := by
  intro e he
  by_cases h1 : chunks = [] ∨ metas = []
  · simp only [add_documents, if_pos h1] at he
    simp at he
  · by_cases h2 : chunks.length ≠ metas.length
    · simp only [add_documents, if_neg h1, if_pos h2] at he
      simp at he
    · simp only [add_documents, if_neg h1, if_neg h2] at he
      rcases List.mem_append.mp he with hcl | hbatch
      · cases clr with
        | false => simp at hcl
        | true =>
          simp at hcl
          subst hcl
          exact ⟨rfl, fun h => Event.noConfusion h⟩
      · obtain ⟨i, _, rfl⟩ := List.mem_map.mp hbatch
        exact ⟨rfl, fun h => Event.noConfusion h⟩

/-- On the pipeline path the two lists handed to `add_documents` come from
one list of pairs, so the length validation never fires and no error is
raised. -/
theorem add_documents_pairs_no_error (l : List (String × DocMeta)) (bs : ℕ) (clr : Bool)
    (hl : l ≠ []) :
    (add_documents (l.map Prod.fst) (l.map Prod.snd) bs clr).2 = none := by
  simp only [add_documents]
  rw [if_neg (by simp [hl]), if_neg (by simp)]

/-- Dropping a prefix on which the predicate holds reduces `dropWhile` to the
remainder. -/
theorem dropWhile_append_all {α : Type} {p : α → Bool} {l1 l2 : List α}
    (h : ∀ x ∈ l1, p x = true) : (l1 ++ l2).dropWhile p = l2.dropWhile p := by
  induction l1 with
  | nil => rfl
  | cons a t ih =>
    have ha := h a (List.mem_cons_self a t)
    simp only [List.cons_append, List.dropWhile_cons, ha, if_true]
    exact ih (fun x hx => h x (List.mem_cons_of_mem a hx))

/-- A list on which the predicate is everywhere false is untouched by
`dropWhile`. -/
theorem dropWhile_eq_self_of_none {α : Type} {p : α → Bool} {l : List α}
    (h : ∀ x ∈ l, p x = false) : l.dropWhile p = l := by
  cases l with
  | nil => rfl
  | cons a t =>
    have ha := h a (List.mem_cons_self a t)
    simp [List.dropWhile_cons, ha]

/-! ## Claim C1: persistence schedule of the indexing pass -/

/-- C1 counterexample: a pass that stages 101 chunks performs two insert
batches with no metadata persist between them (the store is persisted once,
at pass end), refuting the claimed after-each-batch incremental
persistence. -/
theorem index_all_no_incremental_persist :
    persistAfterEachBatch (index_all_documents [] [c1File] true false).1 = false
    ∧ ((index_all_documents [] [c1File] true false).1.filter isInsert).length = 2
    ∧ (index_all_documents [] [c1File] true false).1.count Event.persist = 1 := by
  refine ⟨by decide, by decide, by decide⟩

/-- C1 (amended): the effect trace of `index_all_documents` is a block of
in-memory record updates (produced during the scan, before any insert),
followed by the collection effects of a single `add_documents` call, with
the metadata store persisted at most once, only as the final event of the
pass and only after every insert batch: a crash mid-pass never persists a
record for a file whose chunks were not fully inserted, but the inserts of
completed batches are not recorded incrementally either. -/
theorem index_all_documents_trace (meta0 : List (String × IndexRecord))
    (files : List SrcFile) (inc clr : Bool) :
    (((index_all_documents meta0 files inc clr).1.dropWhile isMark).all
        (fun e => !isMark e) = true)
    ∧ (index_all_documents meta0 files inc clr).1.count Event.persist ≤ 1
    ∧ (Event.persist ∈ (index_all_documents meta0 files inc clr).1 →
        (index_all_documents meta0 files inc clr).1.getLast? = some Event.persist) := by
  by_cases hs : (scanFiles meta0 inc files).1 = []
  · have htr : (index_all_documents meta0 files inc clr).1 =
        (scanFiles meta0 inc files).2.1 := by
      simp only [index_all_documents, if_pos hs]
    rw [htr]
    have hmarks := scanFiles_marks inc files meta0
    have hnp : Event.persist ∉ (scanFiles meta0 inc files).2.1 := by
      intro hmem
      have hx := hmarks Event.persist hmem
      simp [isMark] at hx
    have hdrop : ((scanFiles meta0 inc files).2.1).dropWhile isMark = [] := by
      rw [List.dropWhile_eq_nil_iff]
      intro x hx
      exact hmarks x hx
    refine ⟨by rw [hdrop]; rfl, ?_, ?_⟩
    · rw [List.count_eq_zero.mpr hnp]
      omega
    · intro hmem
      exact absurd hmem hnp
  · have herr := add_documents_pairs_no_error (scanFiles meta0 inc files).1 100 clr hs
    have htr : (index_all_documents meta0 files inc clr).1 =
        (scanFiles meta0 inc files).2.1 ++
          (add_documents ((scanFiles meta0 inc files).1.map Prod.fst)
            ((scanFiles meta0 inc files).1.map Prod.snd) 100 clr).1 ++ [Event.persist] := by
      simp only [index_all_documents, if_neg hs, herr]
    rw [htr]
    have hmarks : ∀ x ∈ (scanFiles meta0 inc files).2.1, isMark x = true :=
      fun x hx => scanFiles_marks inc files meta0 x hx
    have hadds := add_documents_no_mark_persist
      ((scanFiles meta0 inc files).1.map Prod.fst)
      ((scanFiles meta0 inc files).1.map Prod.snd) 100 clr
    have hrest : ∀ x ∈ (add_documents ((scanFiles meta0 inc files).1.map Prod.fst)
        ((scanFiles meta0 inc files).1.map Prod.snd) 100 clr).1 ++ [Event.persist],
        isMark x = false := by
      intro x hx
      rcases List.mem_append.mp hx with h | h
      · exact (hadds x h).1
      · simp at h
        subst h
        rfl
    refine ⟨?_, ?_, ?_⟩
    · rw [List.append_assoc, dropWhile_append_all hmarks,
        dropWhile_eq_self_of_none hrest]
      apply List.all_eq_true.mpr
      intro x hx
      rw [hrest x hx]
      rfl
    · rw [List.count_append, List.count_append]
      have h1 : ((scanFiles meta0 inc files).2.1).count Event.persist = 0 :=
        List.count_eq_zero.mpr (fun hmem => by
          have hx := hmarks _ hmem
          simp [isMark] at hx)
      have h2 : ((add_documents ((scanFiles meta0 inc files).1.map Prod.fst)
          ((scanFiles meta0 inc files).1.map Prod.snd) 100 clr).1).count Event.persist = 0 :=
        List.count_eq_zero.mpr (fun hmem => (hadds _ hmem).2 rfl)
      rw [h1, h2]
      simp
    · intro _
      exact List.getLast?_concat _

/-- Witness instantiating the C1 theorem on the two-batch scenario: the
persist event is the final event of the pass. -/
theorem index_all_documents_trace_witness :
    (index_all_documents [] [c1File] true false).1.getLast? = some Event.persist :=
  (index_all_documents_trace [] [c1File] true false).2.2 (by decide)

/-! ## Claim C9: grounding accepts verbatim substrings -/

/-- A member of a list outside the interior (all positions except the first
and the last) is the first or the last element. -/
theorem mem_head_or_last {α : Type} [Inhabited α] {t : α} :
    ∀ l : List α, t ∈ l → t ∉ l.dropLast.tail → t = l.headI ∨ l.getLast? = some t := by
  intro l
  induction l with
  | nil =>
    intro h _
    simp at h
  | cons h0 rest ih =>
    intro h h2
    cases rest with
    | nil =>
      left
      simpa using h
    | cons h1 rest2 =>
      rcases List.mem_cons.mp h with rfl | hmem
      · left
        rfl
      · have h2x : t ∉ ((h1 :: rest2).dropLast).tail := by
          intro hh
          apply h2
          show t ∈ (h1 :: rest2).dropLast
          exact (List.tail_sublist _).subset hh
        rcases ih hmem h2x with hhead | hlast
        · cases rest2 with
          | nil =>
            right
            rw [hhead]
            rfl
          | cons h2a rest3 =>
            exfalso
            apply h2
            show t ∈ (h1 :: h2a :: rest3).dropLast
            rw [show (h1 :: h2a :: rest3).dropLast = h1 :: (h2a :: rest3).dropLast from rfl,
              hhead]
            exact List.mem_cons_self _ _
        · right
          rw [List.getLast?_cons_cons]
          exact hlast

/-- C9: `verify_citation` accepts whenever the answer is a verbatim substring
of the chunk and its lowercase tokenisation carries at least three distinct
non-stopword tokens (the claim says more than a few). At most the first and
last answer tokens can be cut by the substring boundaries, so at least one
third of the answer tokens are chunk tokens, which exceeds the 0.2 overlap
acceptance threshold of the source. -/
theorem verify_citation_of_substring (chunk answer : List Char)
    (hsub : answer <:+: chunk)
    (hcard : 3 ≤ (((words (answer.map Char.toLower)).toFinset \
      common_words.toFinset)).card) :
    verify_citation chunk answer = true := by
  have hsub2 : answer.map Char.toLower <:+: chunk.map Char.toLower :=
    List.IsInfix.map Char.toLower hsub
  simp only [verify_citation]
  set A := (words (answer.map Char.toLower)).toFinset \ common_words.toFinset with hA
  set C := (words (chunk.map Char.toLower)).toFinset \ common_words.toFinset with hC
  have hsubset : A \ C ⊆
      insert ((words (answer.map Char.toLower)).headI)
        {(words (answer.map Char.toLower)).getLast?.getD []} := by
    intro t ht
    rw [Finset.mem_sdiff] at ht
    obtain ⟨htA, htC⟩ := ht
    rw [hA, Finset.mem_sdiff, List.mem_toFinset] at htA
    obtain ⟨htw, htstop⟩ := htA
    have htnc : t ∉ words (chunk.map Char.toLower) := by
      intro hmem
      exact htC (by
        rw [hC, Finset.mem_sdiff, List.mem_toFinset]
        exact ⟨hmem, htstop⟩)
    have htint : t ∉ ((words (answer.map Char.toLower)).dropLast).tail := by
      intro hh
      exact htnc (mem_words_of_infix_interior hsub2 hh)
    rcases mem_head_or_last (words (answer.map Char.toLower)) htw htint with hh | hh
    · rw [hh]
      exact Finset.mem_insert_self _ _
    · apply Finset.mem_insert_of_mem
      rw [Finset.mem_singleton, hh]
      rfl
  have hcard2 : (A \ C).card ≤ 2 := by
    refine le_trans (Finset.card_le_card hsubset) ?_
    refine le_trans (Finset.card_insert_le _ _) ?_
    simp
  have hsum : (A \ C).card + (A ∩ C).card = A.card := Finset.card_sdiff_add_card_inter A C
  have hkpos : 1 ≤ (A ∩ C).card := by omega
  have hCne : C ≠ ∅ := by
    obtain ⟨x, hx⟩ := Finset.card_pos.mp (by omega : 0 < (A ∩ C).card)
    exact Finset.ne_empty_of_mem (Finset.mem_inter.mp hx).2
  have hAne : A ≠ ∅ := by
    obtain ⟨x, hx⟩ := Finset.card_pos.mp (by omega : 0 < A.card)
    exact Finset.ne_empty_of_mem hx
  rw [if_neg hCne, if_pos hAne]
  apply decide_eq_true
  rw [Finset.inter_comm]
  rw [div_lt_div_iff₀ (by norm_num) (by exact_mod_cast (by omega : 0 < A.card))]
  have hnat : 1 * A.card < (A ∩ C).card * 5 := by omega
  exact_mod_cast hnat

/-- Witness instantiating the C9 theorem: a five-token verbatim substring. -/
theorem verify_citation_of_substring_witness :
    verify_citation "the library remains open from nine until late evening".toList
      "library remains open from nine".toList = true :=
  verify_citation_of_substring _ _ (by decide) (by decide)
